import Mathlib

/-!
Verification of the snuba subscription scheduling and execution engine
against its specification.  The engine components (Tick, SubscriptionData
variants, SubscriptionScheduler, SubscriptionWorker, handle_nan) are
embedded shallowly; time is measured in whole seconds from the epoch.
-/

namespace Snuba

/-- Modelled from the spec: a closed interval value with a lower and an
upper bound, mirroring snuba.utils.types.Interval. -/
structure Interval (α : Type) where
  lower : α
  upper : α
deriving Repr, DecidableEq

/-- Modelled from the spec: a Tick is one advance of a partition commit
log, an offset interval plus the wall-clock timestamp interval it
represents (timestamps as seconds since the epoch). -/
structure Tick where
  offsets : Interval Nat
  timestamps : Interval Nat
deriving Repr, DecidableEq

/-- Modelled from the spec: a first-level condition of a query, enough to
express the injected time-window bounds.  Timestamps inside conditions are
integers so that subtracting the time window never truncates. -/
inductive Condition where
  | gte (column : String) (value : Int)
  | lt (column : String) (value : Int)
  | other (payload : String)
deriving Repr, DecidableEq

/-- Modelled from the spec: the representation-specific part of a request,
distinguishing the legacy condition/aggregation form from the structured
(SnQL) query-string form. -/
inductive RequestBody where
  | legacyBody (aggregations : List (List String))
  | snqlBody (query : String)
deriving Repr, DecidableEq

/-- Modelled from the spec: an executable request, carrying its top-level
AND conditions. -/
structure Request where
  body : RequestBody
  conditions : List Condition
deriving Repr, DecidableEq

/-- Modelled from the spec: the Legacy subscription variant, a query
expressed as condition/aggregation primitives.  Durations are in
seconds. -/
structure LegacySubscriptionData where
  project_id : Nat
  conditions : List Condition
  aggregations : List (List String)
  time_window : Nat
  resolution : Nat
deriving Repr, DecidableEq

/-- Modelled from the spec: the Structured (SnQL) subscription variant, a
query expressed as a declarative query string. -/
structure SnQLSubscriptionData where
  project_id : Nat
  query : String
  time_window : Nat
  resolution : Nat
deriving Repr, DecidableEq

/-- Modelled from the spec: the Delegate subscription variant, wrapping
one Legacy and one Structured instance over the same window and
resolution. -/
structure DelegateSubscriptionData where
  project_id : Nat
  conditions : List Condition
  aggregations : List (List String)
  query : String
  time_window : Nat
  resolution : Nat
deriving Repr, DecidableEq

/-- Modelled from the spec: SubscriptionData as a tagged variant of the
three representations. -/
inductive SubscriptionData where
  | legacy (d : LegacySubscriptionData)
  | snql (d : SnQLSubscriptionData)
  | delegate (d : DelegateSubscriptionData)
deriving Repr, DecidableEq

/-- Modelled from the spec: the resolution (seconds between successive
evaluations) of a subscription. -/
def SubscriptionData.resolution : SubscriptionData → Nat
  | .legacy d => d.resolution
  | .snql d => d.resolution
  | .delegate d => d.resolution

/-- Modelled from the spec: the aggregation time window (in seconds) of a
subscription. -/
def SubscriptionData.time_window : SubscriptionData → Nat
  | .legacy d => d.time_window
  | .snql d => d.time_window
  | .delegate d => d.time_window

/-- Modelled from the spec: the injected time-window conditions that
constrain a request built at timestamp t to the half-open window
from t - time_window (inclusive) to t (exclusive). -/
def timeWindowConditions (time_window : Nat) (t : Nat) : List Condition :=
  [Condition.gte "timestamp" ((t : Int) - (time_window : Int)),
   Condition.lt "timestamp" (t : Int)]

/-- Modelled from the spec: build_request for the Legacy variant, keeping
the stored conditions and appending the injected time-window bounds. -/
def LegacySubscriptionData.build_request (d : LegacySubscriptionData) (t : Nat) : Request :=
  { body := RequestBody.legacyBody d.aggregations
    conditions := d.conditions ++ timeWindowConditions d.time_window t }

/-- Modelled from the spec: build_request for the Structured variant, the
query string plus the injected time-window bounds. -/
def SnQLSubscriptionData.build_request (d : SnQLSubscriptionData) (t : Nat) : Request :=
  { body := RequestBody.snqlBody d.query
    conditions := timeWindowConditions d.time_window t }

/-- Modelled from the spec: the Legacy side wrapped by a Delegate
subscription. -/
def DelegateSubscriptionData.to_legacy (d : DelegateSubscriptionData) : LegacySubscriptionData :=
  { project_id := d.project_id
    conditions := d.conditions
    aggregations := d.aggregations
    time_window := d.time_window
    resolution := d.resolution }

/-- Modelled from the spec: the Structured side wrapped by a Delegate
subscription. -/
def DelegateSubscriptionData.to_snql (d : DelegateSubscriptionData) : SnQLSubscriptionData :=
  { project_id := d.project_id
    query := d.query
    time_window := d.time_window
    resolution := d.resolution }

/-- Modelled from the spec: per-evaluation routing of a Delegate
subscription.  roll is the random draw for this evaluation and pct the
process-wide rollout percentage read at evaluation time; the structured
side is chosen exactly when roll is below pct. -/
def DelegateSubscriptionData.build_request (d : DelegateSubscriptionData)
    (roll pct : Rat) (t : Nat) : Request :=
  if roll < pct then d.to_snql.build_request t else d.to_legacy.build_request t

/-- Modelled from the spec: build_request dispatched over the variants.
The roll and pct arguments only matter for the Delegate variant. -/
def SubscriptionData.build_request (data : SubscriptionData) (roll pct : Rat) (t : Nat) : Request :=
  match data with
  | .legacy d => d.build_request t
  | .snql d => d.build_request t
  | .delegate d => d.build_request roll pct t

/-- Modelled from the spec: a due evaluation, pairing a stored
subscription (its key and data) with an evaluation timestamp. -/
structure Task where
  key : Nat
  data : SubscriptionData
  timestamp : Nat
deriving Repr, DecidableEq

/-- Modelled from the spec: the resolution-aligned timestamps inside a
tick interval, exclusive at the lower bound and inclusive at the upper
bound: the t with lower < t and t ≤ upper and t a multiple of r. -/
def alignedTimestamps (r : Nat) (lower upper : Nat) : List Nat :=
  (List.range' (lower + 1) (upper - lower)).filter (fun t => t % r == 0)

/-- Modelled from the spec: the evaluation timestamps a subscription with
the given resolution is due at within a tick; zero resolution means one
synthetic evaluation at the tick upper bound. -/
def evaluationTimestamps (r : Nat) (tick : Tick) : List Nat :=
  match r with
  | 0 => [tick.timestamps.upper]
  | Nat.succ k =>
    alignedTimestamps (Nat.succ k) tick.timestamps.lower tick.timestamps.upper

namespace SubscriptionScheduler

/-- Modelled from the spec: SubscriptionScheduler.find expands a tick into
the ordered task list, subscriptions in store-enumeration order and, for
each, evaluation timestamps ascending. -/
def find (store : List (Nat × SubscriptionData)) (tick : Tick) : List Task :=
  store.flatMap (fun s =>
    (evaluationTimestamps s.2.resolution tick).map
      (fun t => { key := s.1, data := s.2, timestamp := t }))

end SubscriptionScheduler

/-- Demo SnQL subscription used in the C1 witness. -/
def demoSnql : SubscriptionData :=
  SubscriptionData.snql
    { project_id := 1, query := "MATCH (events) SELECT count() AS count",
      time_window := 3600, resolution := 60 }

/-- Modelled from the spec: an increment event accepted by the metrics
collaborator. -/
structure Increment where
  name : String
  value : Nat
deriving Repr, DecidableEq

/-- Modelled from the spec: the consistency-mode decision of one
evaluation: consistent exactly when this evaluation's independent uniform
draw u in [0, 1) falls below the process-wide sample rate p. -/
def consistentDecision (p u : Rat) : Bool := decide (u < p)

/-- Modelled from the spec: the metric increments one evaluation emits: a
counted event tagged consistent when the evaluation runs consistent,
nothing otherwise. -/
def evaluationMetrics (p u : Rat) : List Increment :=
  if consistentDecision p u then [{ name := "consistent", value := 1 }] else []

/-- Total number of increments of the consistent counter among a list of
metric events. -/
def countConsistent (ms : List Increment) : Nat :=
  ((ms.filter (fun m => m.name == "consistent")).map (fun m => m.value)).sum

/-- Modelled from the spec: execute one task — build its request at the
evaluation timestamp and decide the consistency mode, emitting the
consistent metric when the evaluation runs consistent. -/
def executeTask (task : Task) (roll pct p u : Rat) : Request × List Increment :=
  (task.data.build_request roll pct task.timestamp, evaluationMetrics p u)

/-- Modelled from the spec: submission pairs each due task, in scheduler
order, with the id of the future carrying its execution.  The shared pool
hands out consecutive ids starting at its next free id, so futures of
successive submissions never share an id. -/
def submitTasks (firstId : Nat) (tasks : List Task) : List (Task × Nat) :=
  tasks.enum.map (fun p => (p.2, firstId + p.1))

/-- Modelled from the spec: the batch of future lists accumulated between
flushes: successive process_message calls submit to the same pool, so each
list receives the next run of future ids. -/
def submitBatches (firstId : Nat) : List (List Task) → List (List (Task × Nat))
  | [] => []
  | tasks :: rest =>
    submitTasks firstId tasks :: submitBatches (firstId + tasks.length) rest

/-- Modelled from the spec: the pool's completed-execution table once the
futures have resolved, listed in the (arbitrary, parallel) completion
order: each completion records the future id and the result of executing
that future's task. -/
def completionTable {α : Type} (tasks : List Task) (exec : Task → α)
    (order : List Nat) : List (Nat × α) :=
  order.filterMap (fun i => (tasks[i]?).map (fun task => (i, exec task)))

/-- Modelled from the spec: block on a future: its result is the completed
execution recorded under its id. -/
def awaitFuture {α : Type} (table : List (Nat × α)) (i : Nat) : Option α :=
  (table.find? (fun e => e.1 == i)).map Prod.snd

namespace SubscriptionWorker

/-- Modelled from the spec: flush_batch iterates each future list in its
original order and publishes one result message per task, pairing the task
with its awaited result — completion order never enters. -/
def flush_batch {α : Type} (batches : List (List (Task × Nat)))
    (table : List (Nat × α)) : List (Task × Option α) :=
  (batches.map (fun b => b.map (fun tf => (tf.1, awaitFuture table tf.2)))).flatten

/-- Modelled from the spec: the worker's registered schedulers: the store
snapshot read for each managed partition. -/
def lookupScheduler (schedulers : List (Nat × List (Nat × SubscriptionData)))
    (p : Nat) : Option (List (Nat × SubscriptionData)) :=
  (schedulers.find? (fun e => e.1 == p)).map Prod.snd

/-- Modelled from the spec: a message carrying a tick for one partition. -/
structure TickMessage where
  partition : Nat
  tick : Tick

/-- Modelled from the spec: process_message looks up the scheduler of the
message's partition; an unmanaged partition is a no-op returning nothing,
a managed one yields the full (task, future id) list for the tick, the
pool assigning ids from its next free id onward. -/
def process_message (schedulers : List (Nat × List (Nat × SubscriptionData)))
    (nextFutureId : Nat) (msg : TickMessage) : Option (List (Task × Nat)) :=
  match lookupScheduler schedulers msg.partition with
  | none => none
  | some store =>
    some (submitTasks nextFutureId (SubscriptionScheduler.find store msg.tick))

end SubscriptionWorker

/-- Demo tasks used in the C3 witness. -/
def demoTasks : List Task :=
  [{ key := 7, data := demoSnql, timestamp := 60 },
   { key := 7, data := demoSnql, timestamp := 120 }]

/-- Second demo future list used in the C3 witness. -/
def demoTasksB : List Task :=
  [{ key := 7, data := demoSnql, timestamp := 180 }]

namespace DummySubscriptionDataStore

/-- DummySubscriptionDataStore.delete from
tests/subscriptions/test_worker.py: del the key from the backing dict,
swallowing KeyError — drop the entry carrying that key when present and do
nothing otherwise. -/
def delete (store : List (Nat × SubscriptionData)) (key : Nat) :
    List (Nat × SubscriptionData) :=
  store.filter (fun e => e.1 != key)

end DummySubscriptionDataStore

/-- Demo subscription used in the C1 counterexample. -/
def demoData : SubscriptionData :=
  SubscriptionData.legacy
    { project_id := 1, conditions := [], aggregations := [["count()", "", "count"]],
      time_window := 3600, resolution := 60 }

/-- Demo tick spanning exactly 3 minutes, with a non-aligned upper bound. -/
def demoTick : Tick := { offsets := ⟨0, 1⟩, timestamps := ⟨30, 210⟩ }

/-- Modelled from the spec: a raw query response value — an arbitrary
composition of mappings, sequences and primitive values, where a numeric
leaf is either an ordinary number or the floating-point NaN value. -/
inductive ResponseValue where
  | null
  | boolean (b : Bool)
  | num (x : Int)
  | nan
  | str (s : String)
  | arr (xs : List ResponseValue)
  | obj (fields : List (String × ResponseValue))

mutual

/-- Modelled from the spec: handle_nan recursively walks the response,
replacing every NaN numeric leaf with the literal string nan and passing
every other value — an explicit null included — through unchanged,
rebuilding mappings and sequences in their original order. -/
def handle_nan : ResponseValue → ResponseValue
  | .null => .null
  | .boolean b => .boolean b
  | .num x => .num x
  | .nan => .str "nan"
  | .str s => .str s
  | .arr xs => .arr (handleNanList xs)
  | .obj fields => .obj (handleNanFields fields)

/-- handle_nan applied elementwise to a sequence, preserving order. -/
def handleNanList : List ResponseValue → List ResponseValue
  | [] => []
  | x :: xs => handle_nan x :: handleNanList xs

/-- handle_nan applied to every value of a mapping, preserving the keys
and their order. -/
def handleNanFields : List (String × ResponseValue) → List (String × ResponseValue)
  | [] => []
  | (k, v) :: fields => (k, handle_nan v) :: handleNanFields fields

end

mutual

/-- A response value contains no NaN leaf. -/
def noNan : ResponseValue → Bool
  | .null => true
  | .boolean _ => true
  | .num _ => true
  | .nan => false
  | .str _ => true
  | .arr xs => noNanList xs
  | .obj fields => noNanFields fields

/-- No element of the sequence contains a NaN leaf. -/
def noNanList : List ResponseValue → Bool
  | [] => true
  | x :: xs => noNan x && noNanList xs

/-- No value of the mapping contains a NaN leaf. -/
def noNanFields : List (String × ResponseValue) → Bool
  | [] => true
  | (_, v) :: fields => noNan v && noNanFields fields

end

theorem mem_alignedTimestamps (r lower upper t : Nat) :
    t ∈ alignedTimestamps r lower upper ↔ lower < t ∧ t ≤ upper ∧ t % r = 0 := by
  unfold alignedTimestamps
  rw [List.mem_filter, List.mem_range'_1]
  constructor
  · rintro ⟨⟨h1, h2⟩, h3⟩
    refine ⟨by omega, by omega, by simpa using h3⟩
  · rintro ⟨h1, h2, h3⟩
    exact ⟨⟨by omega, by omega⟩, by simpa using h3⟩

theorem nodup_alignedTimestamps (r lower upper : Nat) :
    (alignedTimestamps r lower upper).Nodup :=
  (List.nodup_range' _ _).filter _

theorem sorted_alignedTimestamps (r lower upper : Nat) :
    (alignedTimestamps r lower upper).Sorted (· < ·) := by
  have h : (List.range' (lower + 1) (upper - lower)).Pairwise (· < ·) := by
    simpa using List.pairwise_lt_range' (lower + 1) (upper - lower) 1 (by omega)
  exact h.filter _

theorem find_singleton (key : Nat) (data : SubscriptionData) (tick : Tick) :
    SubscriptionScheduler.find [(key, data)] tick =
      (evaluationTimestamps data.resolution tick).map
        (fun t => { key := key, data := data, timestamp := t }) := by
  simp [SubscriptionScheduler.find]

theorem evaluationTimestamps_pos (r : Nat) (hr : 0 < r) (tick : Tick) :
    evaluationTimestamps r tick =
      alignedTimestamps r tick.timestamps.lower tick.timestamps.upper := by
  match r, hr with
  | Nat.succ k, _ => rfl

/-- Key computation: a tick spanning exactly three one-minute periods with
an aligned upper bound schedules the three aligned timestamps ending at
the upper bound. -/
theorem alignedTimestamps_three (l : Nat) (hmod : (l + 180) % 60 = 0) :
    alignedTimestamps 60 l (l + 180) = [l + 60, l + 120, l + 180] := by
  have hnd : (alignedTimestamps 60 l (l + 180)).Nodup := nodup_alignedTimestamps _ _ _
  have hsort : (alignedTimestamps 60 l (l + 180)).Sorted (· < ·) :=
    sorted_alignedTimestamps _ _ _
  have hnd2 : ([l + 60, l + 120, l + 180] : List Nat).Nodup := by
    simp [List.nodup_cons]
  have hsort2 : ([l + 60, l + 120, l + 180] : List Nat).Sorted (· < ·) := by
    simp [List.sorted_cons]
  apply List.eq_of_perm_of_sorted _ hsort hsort2
  rw [List.perm_ext_iff_of_nodup hnd hnd2]
  intro t
  rw [mem_alignedTimestamps]
  simp only [List.mem_cons, List.not_mem_nil, or_false]
  omega

/-- C1: for a subscription with resolution r = 60 seconds (1 minute) and
a tick whose timestamp interval spans exactly 3 minutes, the scheduler
yields 3 tasks for it, at timestamps upper - 2r, upper - r, upper —
provided the tick upper bound is aligned to the resolution (the claim
fails without that proviso, see the counterexample). -/
theorem scheduler_three_evaluations (key : Nat) (data : SubscriptionData) (l u : Nat)
    (hres : data.resolution = 60) (hspan : u = l + 180) (halign : u % 60 = 0) :
    SubscriptionScheduler.find [(key, data)]
        { offsets := ⟨0, 1⟩, timestamps := ⟨l, u⟩ } =
      [{ key := key, data := data, timestamp := u - 120 },
       { key := key, data := data, timestamp := u - 60 },
       { key := key, data := data, timestamp := u }] := by
  subst hspan
  rw [find_singleton, hres,
    evaluationTimestamps_pos 60 (by omega) { offsets := ⟨0, 1⟩, timestamps := ⟨l, l + 180⟩ }]
  show (alignedTimestamps 60 l (l + 180)).map _ = _
  rw [alignedTimestamps_three l halign]
  have e1 : l + 180 - 120 = l + 60 := by omega
  have e2 : l + 180 - 60 = l + 120 := by omega
  rw [e1, e2]
  rfl

/-- Witness for C1: a concrete aligned tick. -/
theorem scheduler_three_evaluations_witness :
    SubscriptionScheduler.find [(7, demoSnql)]
        { offsets := ⟨0, 1⟩, timestamps := ⟨60, 240⟩ } =
      [{ key := 7, data := demoSnql, timestamp := 120 },
       { key := 7, data := demoSnql, timestamp := 180 },
       { key := 7, data := demoSnql, timestamp := 240 }] :=
  scheduler_three_evaluations 7 demoSnql 60 240 rfl rfl (by decide)

theorem mem_evaluationTimestamps (r : Nat) (hr : 0 < r) (tick : Tick) (t : Nat) :
    t ∈ evaluationTimestamps r tick ↔
      tick.timestamps.lower < t ∧ t ≤ tick.timestamps.upper ∧ t % r = 0 := by
  rw [evaluationTimestamps_pos r hr, mem_alignedTimestamps]

theorem nodup_evaluationTimestamps (r : Nat) (hr : 0 < r) (tick : Tick) :
    (evaluationTimestamps r tick).Nodup := by
  rw [evaluationTimestamps_pos r hr]
  exact nodup_alignedTimestamps _ _ _

theorem task_key_mem_find (store : List (Nat × SubscriptionData)) (tick : Tick)
    (task : Task) (h : task ∈ SubscriptionScheduler.find store tick) :
    task.key ∈ store.map Prod.fst := by
  simp only [SubscriptionScheduler.find, List.mem_flatMap, List.mem_map] at h
  obtain ⟨s, hs, t, _, rfl⟩ := h
  exact List.mem_map_of_mem Prod.fst hs

/-- The evaluation timestamps the scheduler produces for one subscription
of the snapshot are exactly that subscription's due timestamps. -/
theorem find_filter_key :
    ∀ (store : List (Nat × SubscriptionData)) (key : Nat) (data : SubscriptionData),
      (key, data) ∈ store → (store.map Prod.fst).Nodup → ∀ tick : Tick,
      ((SubscriptionScheduler.find store tick).filter
          (fun task => task.key == key)).map Task.timestamp =
        evaluationTimestamps data.resolution tick := by
  intro store
  induction store with
  | nil => intro key data h; simp at h
  | cons s rest ih =>
    intro key data hmem hnd tick
    rw [List.map_cons, List.nodup_cons] at hnd
    have hfind : SubscriptionScheduler.find (s :: rest) tick =
        ((evaluationTimestamps s.2.resolution tick).map
          (fun t => { key := s.1, data := s.2, timestamp := t })) ++
        SubscriptionScheduler.find rest tick := by
      simp [SubscriptionScheduler.find]
    rw [hfind, List.filter_append, List.map_append]
    by_cases hk : s.1 = key
    · have hs : s = (key, data) := by
        rcases List.mem_cons.mp hmem with h | h
        · exact h.symm
        · exact absurd (hk ▸ List.mem_map_of_mem Prod.fst h) hnd.1
      have hrest : (SubscriptionScheduler.find rest tick).filter
          (fun task => task.key == key) = [] := by
        rw [List.filter_eq_nil_iff]
        intro task htask
        have := task_key_mem_find rest tick task htask
        simp only [beq_iff_eq]
        intro he
        exact hnd.1 (hk ▸ he ▸ this)
      rw [hrest, List.filter_map, List.map_nil, List.append_nil]
      have hs2 : s.2 = data := by rw [hs]
      simp [Function.comp_def, hk, hs2]
    · have hs : (key, data) ∈ rest := by
        rcases List.mem_cons.mp hmem with h | h
        · exact absurd (by rw [← h]) hk
        · exact h
      have hhead : (List.map (fun t => { key := s.1, data := s.2, timestamp := t } : Nat → Task)
          (evaluationTimestamps s.2.resolution tick)).filter
            (fun task => task.key == key) = [] := by
        rw [List.filter_eq_nil_iff]
        intro task htask
        simp only [List.mem_map] at htask
        obtain ⟨t, _, rfl⟩ := htask
        simpa using hk
      rw [hhead, List.map_nil, List.nil_append]
      exact ih key data hs hnd.2 tick

/-- Across a chain of contiguous ticks, the flattened per-tick evaluation
timestamps contain no duplicate and every element lies strictly above the
first tick's lower bound. -/
theorem nodup_flatten_evaluations (r : Nat) (hr : 0 < r) :
    ∀ (ticks : List Tick) (tk0 : Tick), ticks.head? = some tk0 →
      (∀ tk ∈ ticks, tk.timestamps.lower ≤ tk.timestamps.upper) →
      List.Chain' (fun a b => a.timestamps.upper = b.timestamps.lower) ticks →
      ((ticks.map (fun tk => evaluationTimestamps r tk)).flatten).Nodup ∧
      ∀ t ∈ (ticks.map (fun tk => evaluationTimestamps r tk)).flatten,
        tk0.timestamps.lower < t := by
  intro ticks
  induction ticks with
  | nil => intro tk0 h0; simp at h0
  | cons a rest ih =>
    intro tk0 h0 hvalid hchain
    have ha : a = tk0 := by simpa using h0
    subst ha
    rw [List.map_cons, List.flatten_cons]
    match rest, hchain with
    | [], _ =>
      simp only [List.map_nil, List.flatten_nil, List.append_nil]
      refine ⟨nodup_evaluationTimestamps r hr a, ?_⟩
      intro t ht
      exact ((mem_evaluationTimestamps r hr a t).mp ht).1
    | b :: rest2, hchain =>
      have hab : a.timestamps.upper = b.timestamps.lower :=
        (List.chain'_cons.mp hchain).1
      have hchain2 : List.Chain'
          (fun a b => a.timestamps.upper = b.timestamps.lower) (b :: rest2) :=
        (List.chain'_cons.mp hchain).2
      have hvalid2 : ∀ tk ∈ b :: rest2, tk.timestamps.lower ≤ tk.timestamps.upper := by
        intro tk htk
        exact hvalid tk (List.mem_cons_of_mem a htk)
      obtain ⟨ihnd, ihlb⟩ := ih b rfl hvalid2 hchain2
      constructor
      · refine (nodup_evaluationTimestamps r hr a).append ihnd ?_
        intro t hta htr
        have h1 : t ≤ a.timestamps.upper := ((mem_evaluationTimestamps r hr a t).mp hta).2.1
        have h2 : b.timestamps.lower < t := ihlb t htr
        omega
      · intro t ht
        rcases List.mem_append.mp ht with h | h
        · exact ((mem_evaluationTimestamps r hr a t).mp h).1
        · have h2 : b.timestamps.lower < t := ihlb t h
          have h3 : a.timestamps.lower ≤ a.timestamps.upper :=
            hvalid a (List.mem_cons_self a _)
          omega

/-- C2: across a contiguous sequence of ticks, the concatenated evaluation
timestamps the scheduler produces for one stored subscription are exactly
the resolution-aligned timestamps in the union of the tick intervals, with
no duplicate and none omitted. -/
theorem scheduler_contiguous_cover (store : List (Nat × SubscriptionData))
    (key : Nat) (data : SubscriptionData)
    (hmem : (key, data) ∈ store) (hkeys : (store.map Prod.fst).Nodup)
    (hr : 0 < data.resolution) (ticks : List Tick)
    (hvalid : ∀ tk ∈ ticks, tk.timestamps.lower ≤ tk.timestamps.upper)
    (hchain : List.Chain' (fun a b => a.timestamps.upper = b.timestamps.lower) ticks) :
    ((ticks.map (fun tk => ((SubscriptionScheduler.find store tk).filter
        (fun task => task.key == key)).map Task.timestamp)).flatten).Nodup ∧
    ∀ t, t ∈ (ticks.map (fun tk => ((SubscriptionScheduler.find store tk).filter
        (fun task => task.key == key)).map Task.timestamp)).flatten ↔
      ((∃ tk ∈ ticks, tk.timestamps.lower < t ∧ t ≤ tk.timestamps.upper) ∧
        t % data.resolution = 0) := by
  have hmap : ticks.map (fun tk => ((SubscriptionScheduler.find store tk).filter
      (fun task => task.key == key)).map Task.timestamp) =
      ticks.map (fun tk => evaluationTimestamps data.resolution tk) :=
    List.map_congr_left (fun tk _ => find_filter_key store key data hmem hkeys tk)
  rw [hmap]
  constructor
  · match ticks, hvalid, hchain with
    | [], _, _ => simp
    | a :: rest, hvalid, hchain =>
      exact (nodup_flatten_evaluations data.resolution hr (a :: rest) a rfl
        hvalid hchain).1
  · intro t
    rw [List.mem_flatten]
    constructor
    · rintro ⟨l, hl, htl⟩
      rw [List.mem_map] at hl
      obtain ⟨tk, htk, rfl⟩ := hl
      have := (mem_evaluationTimestamps data.resolution hr tk t).mp htl
      exact ⟨⟨tk, htk, this.1, this.2.1⟩, this.2.2⟩
    · rintro ⟨⟨tk, htk, h1, h2⟩, h3⟩
      refine ⟨evaluationTimestamps data.resolution tk,
        List.mem_map_of_mem _ htk, ?_⟩
      exact (mem_evaluationTimestamps data.resolution hr tk t).mpr ⟨h1, h2, h3⟩

/-- Witness for C2: two contiguous one-minute ticks. -/
theorem scheduler_contiguous_cover_witness :
    (([{ offsets := ⟨0, 1⟩, timestamps := ⟨0, 60⟩ },
       { offsets := ⟨1, 2⟩, timestamps := ⟨60, 180⟩ }] : List Tick).map
        (fun tk => ((SubscriptionScheduler.find [(7, demoSnql)] tk).filter
          (fun task => task.key == 7)).map Task.timestamp)).flatten.Nodup ∧
    ∀ t, t ∈ (([{ offsets := ⟨0, 1⟩, timestamps := ⟨0, 60⟩ },
       { offsets := ⟨1, 2⟩, timestamps := ⟨60, 180⟩ }] : List Tick).map
        (fun tk => ((SubscriptionScheduler.find [(7, demoSnql)] tk).filter
          (fun task => task.key == 7)).map Task.timestamp)).flatten ↔
      ((∃ tk ∈ ([{ offsets := ⟨0, 1⟩, timestamps := ⟨0, 60⟩ },
          { offsets := ⟨1, 2⟩, timestamps := ⟨60, 180⟩ }] : List Tick),
          tk.timestamps.lower < t ∧ t ≤ tk.timestamps.upper) ∧
        t % (demoSnql).resolution = 0) :=
  scheduler_contiguous_cover [(7, demoSnql)] 7 demoSnql (by simp)
    (by simp) (by decide) _ (by decide)
    (List.chain'_cons.mpr ⟨rfl, List.chain'_singleton _⟩)

/-- C4: whatever the variant and the evaluation timestamp t, the executed
request carries, among its top-level AND conditions, timestamp ≥ t - w and
timestamp < t, constraining the query to the half-open window
from t - w to t. -/
theorem build_request_window (data : SubscriptionData) (roll pct : Rat) (t : Nat) :
    Condition.gte "timestamp" ((t : Int) - (data.time_window : Int)) ∈
      (data.build_request roll pct t).conditions ∧
    Condition.lt "timestamp" (t : Int) ∈ (data.build_request roll pct t).conditions := by
  cases data with
  | legacy d =>
    simp [SubscriptionData.build_request, LegacySubscriptionData.build_request,
      timeWindowConditions, SubscriptionData.time_window]
  | snql d =>
    simp [SubscriptionData.build_request, SnQLSubscriptionData.build_request,
      timeWindowConditions, SubscriptionData.time_window]
  | delegate d =>
    by_cases h : roll < pct <;>
      simp [SubscriptionData.build_request, DelegateSubscriptionData.build_request, h,
        SnQLSubscriptionData.build_request, LegacySubscriptionData.build_request,
        DelegateSubscriptionData.to_snql, DelegateSubscriptionData.to_legacy,
        timeWindowConditions, SubscriptionData.time_window]

/-- C8: a Delegate evaluation returns the request of exactly one wrapped
side — the two sides always build distinct requests, so the result is
never a merge — and the chosen side depends on this evaluation's roll, not
on the subscription: with pct = 1/2, roll 0 routes to the structured side
and roll 1 to the legacy side. -/
theorem delegate_single_side (d : DelegateSubscriptionData) (roll pct : Rat) (t : Nat) :
    (d.build_request roll pct t = d.to_snql.build_request t ∨
      d.build_request roll pct t = d.to_legacy.build_request t) ∧
    d.to_snql.build_request t ≠ d.to_legacy.build_request t ∧
    d.build_request 0 (1 / 2) t = d.to_snql.build_request t ∧
    d.build_request 1 (1 / 2) t = d.to_legacy.build_request t := by
  refine ⟨?_, ?_, ?_, ?_⟩
  · by_cases h : roll < pct
    · exact Or.inl (by simp [DelegateSubscriptionData.build_request, h])
    · exact Or.inr (by simp [DelegateSubscriptionData.build_request, h])
  · simp [SnQLSubscriptionData.build_request, LegacySubscriptionData.build_request]
  · have h : (0 : Rat) < 1 / 2 := by norm_num
    simp only [DelegateSubscriptionData.build_request]
    rw [if_pos h]
  · have h : ¬((1 : Rat) < 1 / 2) := by norm_num
    simp only [DelegateSubscriptionData.build_request]
    rw [if_neg h]

/-- C7: with the consistency sample rate fixed at 1, every task evaluation
increments the consistent counter exactly once; fixed at 0, never (for any
uniform draw u in [0, 1)). -/
theorem consistent_metric_rate (task : Task) (roll pct u : Rat)
    (h0 : 0 ≤ u) (h1 : u < 1) :
    countConsistent (executeTask task roll pct 1 u).2 = 1 ∧
    countConsistent (executeTask task roll pct 0 u).2 = 0 := by
  constructor
  · simp [executeTask, evaluationMetrics, consistentDecision, h1, countConsistent]
  · simp [executeTask, evaluationMetrics, consistentDecision, not_lt.mpr h0,
      countConsistent]

/-- Witness for C7: a concrete evaluation with draw 1/2. -/
theorem consistent_metric_rate_witness :
    countConsistent
      (executeTask { key := 7, data := demoSnql, timestamp := 60 } 0 0 1 (1 / 2)).2 = 1 ∧
    countConsistent
      (executeTask { key := 7, data := demoSnql, timestamp := 60 } 0 0 0 (1 / 2)).2 = 0 :=
  consistent_metric_rate { key := 7, data := demoSnql, timestamp := 60 } 0 0 (1 / 2)
    (by norm_num) (by norm_num)

theorem awaitFuture_completionTable {α : Type} (tasks : List Task) (exec : Task → α)
    (order : List Nat) (i : Nat) (hi : i < tasks.length) (hmem : i ∈ order) :
    awaitFuture (completionTable tasks exec order) i = some (exec tasks[i]) := by
  have hmem2 : (i, exec tasks[i]) ∈ completionTable tasks exec order := by
    rw [completionTable, List.mem_filterMap]
    exact ⟨i, hmem, by rw [List.getElem?_eq_getElem hi]; rfl⟩
  have hsome : (List.find? (fun e => e.1 == i)
      (completionTable tasks exec order)).isSome := by
    rw [List.find?_isSome]
    exact ⟨(i, exec tasks[i]), hmem2, by simp⟩
  obtain ⟨e, he⟩ := Option.isSome_iff_exists.mp hsome
  have hp : e.1 = i := by simpa using List.find?_some he
  have hmem3 : e ∈ completionTable tasks exec order := List.mem_of_find?_eq_some he
  rw [completionTable, List.mem_filterMap] at hmem3
  obtain ⟨j, _, hje⟩ := hmem3
  rw [Option.map_eq_some'] at hje
  obtain ⟨task, htj, rfl⟩ := hje
  have hji : j = i := hp
  subst hji
  rw [List.getElem?_eq_getElem hi] at htj
  obtain rfl : _ = task := Option.some.inj htj
  rw [awaitFuture, he]
  rfl

/-- Resolution of an arbitrary future id against the completed pool: an id
of a submitted future yields its task's result, any other id is still
unresolved. -/
theorem awaitFuture_completionTable_total {α : Type} (tasks : List Task)
    (exec : Task → α) (order : List Nat)
    (horder : ∀ i, i < tasks.length → i ∈ order) (k : Nat) :
    awaitFuture (completionTable tasks exec order) k = (tasks[k]?).map exec := by
  by_cases hk : k < tasks.length
  · rw [awaitFuture_completionTable tasks exec order k hk (horder k hk),
      List.getElem?_eq_getElem hk]
    rfl
  · have h1 : tasks[k]? = none := List.getElem?_eq_none (by omega)
    rw [h1]
    have h2 : List.find? (fun e => e.1 == k) (completionTable tasks exec order) = none := by
      rw [List.find?_eq_none]
      intro e he
      rw [completionTable, List.mem_filterMap] at he
      obtain ⟨j, _, hje⟩ := he
      rw [Option.map_eq_some'] at hje
      obtain ⟨task, htj, rfl⟩ := hje
      have hj : j < tasks.length := by
        by_contra hc
        rw [List.getElem?_eq_none (by omega)] at htj
        exact Option.noConfusion htj
      simp only [beq_iff_eq]
      omega
    rw [awaitFuture, h2]
    rfl

/-- One future list of a batch flushes to its tasks in original order when
every one of its futures resolves to its own task's result. -/
theorem map_submitTasks_await {α : Type} (exec : Task → α) (b : List Task)
    (f : Nat) (table : List (Nat × α))
    (h : ∀ n (hn : n < b.length), awaitFuture table (f + n) = some (exec (b.get ⟨n, hn⟩))) :
    (submitTasks f b).map (fun tf => (tf.1, awaitFuture table tf.2)) =
      b.map (fun task => (task, some (exec task))) := by
  apply List.ext_getElem
  · simp [submitTasks]
  · intro n h1 h2
    have hn : n < b.length := by simpa using h2
    simp only [List.getElem_map, submitTasks, List.getElem_enum]
    rw [h n hn]
    rfl

/-- Flushing a whole submitted batch against any future table that
resolves each global future id to its own task's result yields the tasks
in original order, list by list. -/
theorem flush_submitBatches {α : Type} (exec : Task → α) :
    ∀ (batches : List (List Task)) (firstId : Nat) (table : List (Nat × α)),
      (∀ k, awaitFuture table (firstId + k) = (batches.flatten[k]?).map exec) →
      SubscriptionWorker.flush_batch (submitBatches firstId batches) table =
        batches.flatten.map (fun task => (task, some (exec task))) := by
  intro batches
  induction batches with
  | nil => intro f table h; rfl
  | cons b rest ih =>
    intro f table h
    simp only [List.flatten_cons] at h
    have h1 : ∀ n (hn : n < b.length),
        awaitFuture table (f + n) = some (exec (b.get ⟨n, hn⟩)) := by
      intro n hn
      rw [h n, List.getElem?_append_left hn, List.getElem?_eq_getElem hn]
      rfl
    have h2 : ∀ k, awaitFuture table ((f + b.length) + k) =
        (rest.flatten[k]?).map exec := by
      intro k
      have e : b.length + k - b.length = k := by omega
      rw [Nat.add_assoc, h (b.length + k),
        List.getElem?_append_right (by omega), e]
    have hrest := ih (f + b.length) table h2
    rw [SubscriptionWorker.flush_batch] at hrest ⊢
    rw [submitBatches]
    simp only [List.map_cons, List.flatten_cons]
    rw [hrest, List.map_append, map_submitTasks_await exec b f table h1]

/-- C3: for every batch of future lists and every order in which the pool
completes the executions — as long as every submitted future completes —
flush_batch publishes exactly one message per task, each carrying that
task's own result, in the original task order: list by list as returned by
process_message, ascending within each list, never by completion order. -/
theorem flush_batch_order {α : Type} (batches : List (List Task))
    (exec : Task → α) (order : List Nat)
    (horder : ∀ i, i < batches.flatten.length → i ∈ order) :
    SubscriptionWorker.flush_batch (submitBatches 0 batches)
        (completionTable batches.flatten exec order) =
      batches.flatten.map (fun task => (task, some (exec task))) := by
  apply flush_submitBatches exec batches 0 (completionTable batches.flatten exec order)
  intro k
  rw [Nat.zero_add]
  exact awaitFuture_completionTable_total batches.flatten exec order horder k

/-- Witness for C3: a batch of two future lists whose three futures
complete out of order (third, first, second) is still published list by
list in task order, each task paired with its own result. -/
theorem flush_batch_order_witness :
    SubscriptionWorker.flush_batch (submitBatches 0 [demoTasks, demoTasksB])
        (completionTable ([demoTasks, demoTasksB] : List (List Task)).flatten
          Task.timestamp [2, 0, 1]) =
      ([demoTasks, demoTasksB] : List (List Task)).flatten.map
        (fun task => (task, some task.timestamp)) :=
  flush_batch_order [demoTasks, demoTasksB] Task.timestamp [2, 0, 1]
    (by
      intro i hi
      have h2 : i < 3 := by simpa [demoTasks, demoTasksB] using hi
      interval_cases i <;> decide)

/-- C9: a tick message for a partition with no registered scheduler is
processed to nothing — a no-op, not an error — while a registered
partition yields the full (task, future id) list for the tick. -/
theorem process_message_partition (schedulers : List (Nat × List (Nat × SubscriptionData)))
    (nextFutureId : Nat) (msg : SubscriptionWorker.TickMessage) :
    (SubscriptionWorker.lookupScheduler schedulers msg.partition = none →
      SubscriptionWorker.process_message schedulers nextFutureId msg = none) ∧
    ∀ store, SubscriptionWorker.lookupScheduler schedulers msg.partition = some store →
      SubscriptionWorker.process_message schedulers nextFutureId msg =
        some (submitTasks nextFutureId (SubscriptionScheduler.find store msg.tick)) := by
  constructor
  · intro h
    simp [SubscriptionWorker.process_message, h]
  · intro store h
    simp [SubscriptionWorker.process_message, h]

/-- Witness for C9: partition 1 is unmanaged (nothing returned), partition
0 is managed (full task list returned). -/
theorem process_message_partition_witness :
    SubscriptionWorker.process_message [(0, [(7, demoSnql)])] 0
        { partition := 1, tick := { offsets := ⟨0, 1⟩, timestamps := ⟨0, 60⟩ } } = none ∧
    SubscriptionWorker.process_message [(0, [(7, demoSnql)])] 0
        { partition := 0, tick := { offsets := ⟨0, 1⟩, timestamps := ⟨0, 60⟩ } } =
      some (submitTasks 0 (SubscriptionScheduler.find [(7, demoSnql)]
        { offsets := ⟨0, 1⟩, timestamps := ⟨0, 60⟩ })) :=
  ⟨(process_message_partition [(0, [(7, demoSnql)])] 0
      { partition := 1, tick := { offsets := ⟨0, 1⟩, timestamps := ⟨0, 60⟩ } }).1 rfl,
   (process_message_partition [(0, [(7, demoSnql)])] 0
      { partition := 0, tick := { offsets := ⟨0, 1⟩, timestamps := ⟨0, 60⟩ } }).2
     [(7, demoSnql)] rfl⟩

/-- C10: deleting a key that is not in the store raises no error and
leaves the stored subscription set unchanged. -/
theorem delete_absent (store : List (Nat × SubscriptionData)) (key : Nat)
    (h : key ∉ store.map Prod.fst) :
    DummySubscriptionDataStore.delete store key = store := by
  rw [DummySubscriptionDataStore.delete, List.filter_eq_self]
  intro e he
  simp only [bne_iff_ne, ne_eq]
  intro heq
  exact h (heq ▸ List.mem_map_of_mem Prod.fst he)

/-- Witness for C10: deleting the absent key 9 from a one-entry store. -/
theorem delete_absent_witness :
    DummySubscriptionDataStore.delete [(7, demoSnql)] 9 = [(7, demoSnql)] :=
  delete_absent [(7, demoSnql)] 9 (by decide)

/-- Counterexample to C1 as literally stated: this tick spans exactly 3
minutes and the subscription has resolution one minute, yet the scheduled
evaluation timestamps are the epoch-aligned 60, 120, 180, not
upper - 2r, upper - r, upper = 90, 150, 210. -/
theorem scheduler_three_evaluations_counterexample :
    demoTick.timestamps.upper - demoTick.timestamps.lower = 180 ∧
    demoData.resolution = 60 ∧
    (SubscriptionScheduler.find [(7, demoData)] demoTick).map Task.timestamp =
      [60, 120, 180] ∧
    (SubscriptionScheduler.find [(7, demoData)] demoTick).map Task.timestamp ≠
      [210 - 120, 210 - 60, 210] := by
  refine ⟨rfl, rfl, by decide, by decide⟩

mutual

theorem handle_nan_fixed : ∀ v, noNan v = true → handle_nan v = v
  | .null, _ => rfl
  | .boolean _, _ => rfl
  | .num _, _ => rfl
  | .nan, h => by simp [noNan] at h
  | .str _, _ => rfl
  | .arr xs, h => by
    rw [handle_nan, handleNanList_fixed xs (by simpa [noNan] using h)]
  | .obj fields, h => by
    rw [handle_nan, handleNanFields_fixed fields (by simpa [noNan] using h)]

theorem handleNanList_fixed : ∀ xs, noNanList xs = true → handleNanList xs = xs
  | [], _ => rfl
  | x :: xs, h => by
    rw [handleNanList, handle_nan_fixed x (by simp [noNanList] at h; exact h.1),
      handleNanList_fixed xs (by simp [noNanList] at h; exact h.2)]

theorem handleNanFields_fixed :
    ∀ fields, noNanFields fields = true → handleNanFields fields = fields
  | [], _ => rfl
  | (k, v) :: fields, h => by
    rw [handleNanFields, handle_nan_fixed v (by simp [noNanFields] at h; exact h.1),
      handleNanFields_fixed fields (by simp [noNanFields] at h; exact h.2)]

end

mutual

theorem handle_nan_noNan : ∀ v, noNan (handle_nan v) = true
  | .null => rfl
  | .boolean _ => rfl
  | .num _ => rfl
  | .nan => rfl
  | .str _ => rfl
  | .arr xs => by rw [handle_nan, noNan, handleNanList_noNan xs]
  | .obj fields => by rw [handle_nan, noNan, handleNanFields_noNan fields]

theorem handleNanList_noNan : ∀ xs, noNanList (handleNanList xs) = true
  | [] => rfl
  | x :: xs => by
    rw [handleNanList, noNanList, handle_nan_noNan x, handleNanList_noNan xs]
    rfl

theorem handleNanFields_noNan : ∀ fields, noNanFields (handleNanFields fields) = true
  | [] => rfl
  | (k, v) :: fields => by
    rw [handleNanFields, noNanFields, handle_nan_noNan v, handleNanFields_noNan fields]
    rfl

end

theorem handleNanFields_keys :
    ∀ fields, (handleNanFields fields).map Prod.fst = fields.map Prod.fst
  | [] => rfl
  | (k, v) :: fields => by
    rw [handleNanFields, List.map_cons, List.map_cons, handleNanFields_keys fields]

theorem handleNanList_length : ∀ xs, (handleNanList xs).length = xs.length
  | [] => rfl
  | x :: xs => by rw [handleNanList, List.length_cons, List.length_cons,
    handleNanList_length xs]

/-- C5: handle_nan sends the mapping data ↦ [a ↦ NaN, b ↦ null] to
data ↦ [a ↦ "nan", b ↦ null]; in general every NaN leaf is replaced by
the string nan (the output is NaN-free), every NaN-free value — null
included — passes through unchanged, and mapping key order and sequence
element order are preserved. -/
theorem handle_nan_spec :
    (handle_nan (.obj [("data", .arr [.obj [("a", .nan), ("b", .null)]])]) =
      .obj [("data", .arr [.obj [("a", .str "nan"), ("b", .null)]])]) ∧
    (∀ v, noNan (handle_nan v) = true) ∧
    (∀ v, noNan v = true → handle_nan v = v) ∧
    (∀ fields, (handleNanFields fields).map Prod.fst = fields.map Prod.fst) ∧
    (∀ xs, (handleNanList xs).length = xs.length) :=
  ⟨rfl, handle_nan_noNan, handle_nan_fixed, handleNanFields_keys, handleNanList_length⟩

/-- Witness for C5: a NaN-free value passes through handle_nan
unchanged. -/
theorem handle_nan_spec_witness :
    handle_nan (.arr [.num 3, .null]) = .arr [.num 3, .null] :=
  handle_nan_spec.2.2.1 (.arr [.num 3, .null]) rfl

/-- C6: handle_nan is total — every response value, of any nesting depth,
has a defined result, and that result is NaN-free. -/
theorem handle_nan_total : ∀ v, ∃ r, handle_nan v = r ∧ noNan r = true :=
  fun v => ⟨handle_nan v, rfl, handle_nan_noNan v⟩

end Snuba
